import Mathlib

/-!
# O3SerialWriter — shallow embedding and verification

A shallow embedding of `src/O3SerialWriter.h` (Arduino line-oriented logging
façade).  Log levels are modelled by their `uint8_t` numeric values
(Debug = 0, Info = 1, Warn = 2, Error = 3, None = 255), C strings by
`List Char` (a C string cannot contain the terminator, so the null check in
the copy loops corresponds to reaching the end of the list; a null `char*`
pointer is `Option.none`).  The sink (`Stream* out`) is modelled by a flag
recording whether a sink is attached, plus an output trace of tokens: each
`out->print`/`out->println` call appends tokens, and a `render` function
flattens the trace to the exact bytes the sink receives.  The `millis()`
clock is an external input, passed to each write operation as a `Nat`.

Identifier note: the source spells the prefix-related members
`prefixBuffer` / `copyPrefix` / `setPrefix` / `prefixMaxLen`; here the
word is abbreviated to `pfx` (`pfxBuffer`, `copyPfx`, `setPfx`,
`pfxMaxLen`) because `prefix` is a reserved token in Lean.
-/

namespace O3

/-- Numeric value of `O3LogLevel::Debug`. -/
def debugLevel : Nat := 0

/-- Numeric value of `O3LogLevel::Info`. -/
def infoLevel : Nat := 1

/-- Numeric value of `O3LogLevel::Warn`. -/
def warnLevel : Nat := 2

/-- Numeric value of `O3LogLevel::Error`. -/
def errorLevel : Nat := 3

/-- Numeric value of `O3LogLevel::None` (the suppress-all sentinel). -/
def noneLevel : Nat := 255

/-- `prefixMaxLen` in the source: capacity of the prefix buffer. -/
def pfxMaxLen : Nat := 32

/-- `partSepMaxLen` in the source: capacity of the separator buffer. -/
def partSepMaxLen : Nat := 8

/-- The mutable state of an `O3SerialWriter` object.  `out` records whether a
sink is attached (`out != nullptr`); the bytes written to the sink live in the
separate output trace. -/
structure Writer where
  out : Bool
  enabled : Bool
  showMillis : Bool
  showLevel : Bool
  minLevel : Nat
  defaultLevel : Nat
  lineOpen : Bool
  activeLevel : Nat
  pfxBuffer : List Char
  partSeparatorBuffer : List Char
deriving DecidableEq, Repr

/-- A freshly constructed `O3SerialWriter` with the member initializers of the
source: no sink, enabled, both display toggles on, `minLevel = Debug`,
`defaultLevel = Info`, line closed, empty prefix, single-space separator. -/
def initWriter : Writer :=
  { out := false
    enabled := true
    showMillis := true
    showLevel := true
    minLevel := debugLevel
    defaultLevel := infoLevel
    lineOpen := false
    activeLevel := infoLevel
    pfxBuffer := []
    partSeparatorBuffer := [' '] }

/-- `O3SerialWriterOptions`: the configuration struct.  The two `const char*`
fields are `Option (List Char)` so a null pointer can be passed. -/
structure Options where
  pfx : Option (List Char)
  showMillis : Bool
  showLevel : Bool
  minLevel : Nat
  partSeparator : Option (List Char)
deriving DecidableEq, Repr

/-- Default-constructed `O3SerialWriterOptions`. -/
def defaultOptions : Options :=
  { pfx := some []
    showMillis := true
    showLevel := true
    minLevel := debugLevel
    partSeparator := some [' '] }

/-- The copy loop shared by `copyPrefix` and `copyPartSeparator`:
`for (; i + 1 < cap && value[i] != '\0'; i++) buf[i] = value[i]; buf[i] = '\0';`
`room` is `cap - 1`, the number of usable characters; the loop stops when the
room is exhausted or the source string ends. -/
def copyBounded : Nat → List Char → List Char
  | 0, _ => []
  | _ + 1, [] => []
  | room + 1, c :: cs => c :: copyBounded room cs

/-- `copyPrefix` in the source: a null pointer is treated as the empty string,
then at most `pfxMaxLen - 1` characters are copied. -/
def copyPfx (value : Option (List Char)) : List Char :=
  copyBounded (pfxMaxLen - 1) (value.getD [])

/-- `copyPartSeparator` in the source: a null pointer or empty string is
replaced by a single space, then at most `partSepMaxLen - 1` characters are
copied. -/
def copyPartSeparator (value : Option (List Char)) : List Char :=
  let v := value.getD []
  copyBounded (partSepMaxLen - 1) (if v = [] then [' '] else v)

/-- One token of sink output.  `hdr` is one `writeHeader` call (carrying the
exact bytes it printed and the level it was called with), `txt` is one
`out->print` of a value, `brk` is one line break. -/
inductive Tok where
  | hdr (bytes : List Char) (level : Nat)
  | txt (bytes : List Char)
  | brk
deriving DecidableEq, Repr

/-- `levelText` in the source. -/
def levelText (level : Nat) : List Char :=
  if level = debugLevel then "DEBUG".toList
  else if level = infoLevel then "INFO".toList
  else if level = warnLevel then "WARN".toList
  else if level = errorLevel then "ERROR".toList
  else "LOG".toList

/-- Decimal rendering of the `millis()` value, as `Print::print(unsigned long)`
emits it. -/
def natChars (n : Nat) : List Char := (Nat.repr n).toList

/-- Bytes printed by one `writeHeader(level)` call, given the configuration in
`s` and the current clock value `ms`: prefix segment if the stored prefix is
non-empty, then the millis value and a space if enabled, then the severity
label and a colon-space if enabled. -/
def writeHeaderBytes (s : Writer) (ms level : Nat) : List Char :=
  (if s.pfxBuffer ≠ [] then '[' :: (s.pfxBuffer ++ [']', ' ']) else [])
    ++ (if s.showMillis then natChars ms ++ [' '] else [])
    ++ (if s.showLevel then levelText level ++ [':', ' '] else [])

/-- `resetLineState` in the source. -/
def resetLineState (s : Writer) : Writer :=
  { s with lineOpen := false, activeLevel := s.defaultLevel }

/-- `canWrite` in the source: the central filter. -/
def canWrite (s : Writer) (level : Nat) : Bool :=
  if !s.enabled then false
  else if !s.out then false
  else if s.minLevel = noneLevel then false
  else decide (s.minLevel ≤ level)

/-- `ensureLineHeader` in the source: returns the new state and the tokens
printed.  If no line is open, write a header and open the line; if a line is
open at a different level, print a line break, reset, and open a new line with
a fresh header; otherwise do nothing. -/
def ensureLineHeader (s : Writer) (ms level : Nat) : Writer × List Tok :=
  if !s.lineOpen then
    ({ s with activeLevel := level, lineOpen := true },
      [Tok.hdr (writeHeaderBytes s ms level) level])
  else if level ≠ s.activeLevel then
    let s1 := resetLineState s
    ({ s1 with activeLevel := level, lineOpen := true },
      [Tok.brk, Tok.hdr (writeHeaderBytes s1 ms level) level])
  else (s, [])

/-- `printWithLevel` in the source (the spec's `writeAt`): gate, ensure
header, print the value, leave the line open. -/
def printWithLevel (s : Writer) (ms level : Nat) (value : List Char) :
    Writer × List Tok :=
  if !canWrite s level then (s, [])
  else
    let p := ensureLineHeader s ms level
    (p.1, p.2 ++ [Tok.txt value])

/-- `printlnWithLevel` in the source (the spec's `writelnAt`): gate, ensure
header, print the value and a line break, reset the line state. -/
def printlnWithLevel (s : Writer) (ms level : Nat) (value : List Char) :
    Writer × List Tok :=
  if !canWrite s level then (s, [])
  else
    let p := ensureLineHeader s ms level
    (resetLineState p.1, p.2 ++ [Tok.txt value, Tok.brk])

/-- The no-argument `println()` in the source: operates at `defaultLevel`. -/
def printlnNoArg (s : Writer) (ms : Nat) : Writer × List Tok :=
  if !canWrite s s.defaultLevel then (s, [])
  else
    let p := ensureLineHeader s ms s.defaultLevel
    (resetLineState p.1, p.2 ++ [Tok.brk])

/-- `print(value)` in the source: delegates to `printWithLevel` at
`defaultLevel`. -/
def printDefault (s : Writer) (ms : Nat) (value : List Char) :
    Writer × List Tok :=
  printWithLevel s ms s.defaultLevel value

/-- `println(value)` in the source: delegates to `printlnWithLevel` at
`defaultLevel`. -/
def printlnDefault (s : Writer) (ms : Nat) (value : List Char) :
    Writer × List Tok :=
  printlnWithLevel s ms s.defaultLevel value

/-- `line` in the source (the spec's `logAt`): gate, ensure header, print the
message and a line break, reset the line state. -/
def line (s : Writer) (ms level : Nat) (message : List Char) :
    Writer × List Tok :=
  if !canWrite s level then (s, [])
  else
    let p := ensureLineHeader s ms level
    (resetLineState p.1, p.2 ++ [Tok.txt message, Tok.brk])

/-- `writeParts` in the source: print the first part; if parts remain, print
the separator and recurse.  Parts are modelled pre-stringified. -/
def writeParts (sep : List Char) : List (List Char) → List Tok
  | [] => []
  | [p] => [Tok.txt p]
  | p :: q :: rest => Tok.txt p :: Tok.txt sep :: writeParts sep (q :: rest)

/-- `parts` in the source (the spec's `logParts`): gate, ensure header, print
all parts joined by the separator, print a line break, reset the line
state. -/
def parts (s : Writer) (ms level : Nat) (ps : List (List Char)) :
    Writer × List Tok :=
  if !canWrite s level then (s, [])
  else
    let p := ensureLineHeader s ms level
    (resetLineState p.1, p.2 ++ writeParts s.partSeparatorBuffer ps ++ [Tok.brk])

/-- `configure` in the source: copy both strings into the bounded buffers,
store the toggles and the threshold, reset the line state. -/
def configure (s : Writer) (o : Options) : Writer :=
  resetLineState
    { s with
      pfxBuffer := copyPfx o.pfx
      partSeparatorBuffer := copyPartSeparator o.partSeparator
      showMillis := o.showMillis
      showLevel := o.showLevel
      minLevel := o.minLevel }

/-- `setPrefix` in the source. -/
def setPfx (s : Writer) (v : Option (List Char)) : Writer :=
  { s with pfxBuffer := copyPfx v }

/-- `setMinLevel` in the source. -/
def setMinLevel (s : Writer) (level : Nat) : Writer :=
  { s with minLevel := level }

/-- `setPartSeparator` in the source. -/
def setPartSeparator (s : Writer) (v : Option (List Char)) : Writer :=
  { s with partSeparatorBuffer := copyPartSeparator v }

/-- `setEnabled` in the source: store the flag; when disabling, also reset the
line state. -/
def setEnabled (s : Writer) (isEnabled : Bool) : Writer :=
  let s1 := { s with enabled := isEnabled }
  if !isEnabled then resetLineState s1 else s1

/-- `begin(Stream&, options)` in the source: attach the sink, then
configure. -/
def beginWriter (s : Writer) (o : Options) : Writer :=
  configure { s with out := true } o

/-- One public call on the writer (value arguments pre-stringified, each write
carrying the `millis()` reading observed during the call). -/
inductive Op where
  | opConfigure (o : Options)
  | opSetPfx (v : Option (List Char))
  | opSetMinLevel (level : Nat)
  | opSetPartSeparator (v : Option (List Char))
  | opSetEnabled (b : Bool)
  | opPrint (ms level : Nat) (v : List Char)
  | opPrintln (ms level : Nat) (v : List Char)
  | opPrintlnNoArg (ms : Nat)
  | opLine (ms level : Nat) (msg : List Char)
  | opParts (ms level : Nat) (ps : List (List Char))
deriving DecidableEq, Repr

/-- Execute one call: new state plus the tokens it wrote to the sink. -/
def step (s : Writer) : Op → Writer × List Tok
  | .opConfigure o => (configure s o, [])
  | .opSetPfx v => (setPfx s v, [])
  | .opSetMinLevel l => (setMinLevel s l, [])
  | .opSetPartSeparator v => (setPartSeparator s v, [])
  | .opSetEnabled b => (setEnabled s b, [])
  | .opPrint ms l v => printWithLevel s ms l v
  | .opPrintln ms l v => printlnWithLevel s ms l v
  | .opPrintlnNoArg ms => printlnNoArg s ms
  | .opLine ms l m => line s ms l m
  | .opParts ms l ps => parts s ms l ps

/-- Execute a sequence of calls, concatenating the output. -/
def run (s : Writer) : List Op → Writer × List Tok
  | [] => (s, [])
  | op :: ops =>
    let p := step s op
    let q := run p.1 ops
    (q.1, p.2 ++ q.2)

/-- Is this token a header? -/
def isHdr : Tok → Bool
  | .hdr _ _ => true
  | _ => false

/-- Number of headers in a piece of output. -/
def countHdr (out : List Tok) : Nat := out.countP isHdr

/-- Is this token a line break? -/
def isBrk : Tok → Bool
  | .brk => true
  | _ => false

/-- Number of line breaks in a piece of output. -/
def countBrk (out : List Tok) : Nat := out.countP isBrk

/-- Scanning a reversed trace: the level of the most recent header if no line
break has been written since it, else `none`. -/
def openLevelRev : List Tok → Option Nat
  | [] => none
  | .brk :: _ => none
  | .hdr _ level :: _ => some level
  | .txt _ :: rest => openLevelRev rest

/-- The level of the last header in the trace, provided no line break was
written after it. -/
def openLevel (out : List Tok) : Option Nat := openLevelRev out.reverse

/-- The line-state invariant (spec §3): whenever `lineOpen` is true, a header
for `activeLevel` has been written to the sink and no line break has been
written since. -/
def lineInv (s : Writer) (out : List Tok) : Prop :=
  s.lineOpen = true → openLevel out = some s.activeLevel

/-- Bytes of one line break (`Print::println` emits CR LF). -/
def newlineBytes : List Char := ['\r', '\n']

/-- Flatten a token trace to the exact bytes the sink receives. -/
def render : List Tok → List Char
  | [] => []
  | .hdr bytes _ :: rest => bytes ++ render rest
  | .txt bytes :: rest => bytes ++ render rest
  | .brk :: rest => newlineBytes ++ render rest

/-! ## Helper lemmas -/

theorem copyBounded_eq_take (room : Nat) (v : List Char) :
    copyBounded room v = v.take room := by
  induction room generalizing v with
  | zero => cases v <;> simp [copyBounded]
  | succ r ih => cases v <;> simp [copyBounded, ih]

theorem canWrite_line_fields (s : Writer) (b : Bool) (a level : Nat) :
    canWrite { s with lineOpen := b, activeLevel := a } level = canWrite s level :=
  rfl

theorem writeHeaderBytes_reset (s : Writer) (ms level : Nat) :
    writeHeaderBytes (resetLineState s) ms level = writeHeaderBytes s ms level :=
  rfl

/-- Case 1 of `ensureLineHeader`: line closed. -/
theorem ensureLineHeader_closed {s : Writer} (ms level : Nat)
    (ho : s.lineOpen = false) :
    ensureLineHeader s ms level =
      ({ s with activeLevel := level, lineOpen := true },
        [Tok.hdr (writeHeaderBytes s ms level) level]) := by
  simp [ensureLineHeader, ho]

/-- Case 2 of `ensureLineHeader`: line open at the same level. -/
theorem ensureLineHeader_same {s : Writer} (ms level : Nat)
    (ho : s.lineOpen = true) (ha : s.activeLevel = level) :
    ensureLineHeader s ms level = (s, []) := by
  simp [ensureLineHeader, ho, ha]

/-- Case 3 of `ensureLineHeader`: line open at a different level. -/
theorem ensureLineHeader_switch {s : Writer} (ms level : Nat)
    (ho : s.lineOpen = true) (ha : level ≠ s.activeLevel) :
    ensureLineHeader s ms level =
      ({ s with activeLevel := level, lineOpen := true },
        [Tok.brk, Tok.hdr (writeHeaderBytes s ms level) level]) := by
  obtain ⟨o, e, sm, sl, ml, dl, lo, al, pb, sb⟩ := s
  simp only at ho ha
  simp [ensureLineHeader, resetLineState, writeHeaderBytes, ho, ha]

/-- An attached, enabled writer in its default configuration. -/
def wEx : Writer := { initWriter with out := true }

/-- A writer that is attached but disabled. -/
def wDis : Writer := { initWriter with out := true, enabled := false }

theorem run_nil (s : Writer) : run s [] = (s, []) := rfl

theorem run_cons (s : Writer) (op : Op) (ops : List Op) :
    run s (op :: ops) =
      ((run (step s op).1 ops).1, (step s op).2 ++ (run (step s op).1 ops).2) :=
  rfl

theorem printWithLevel_closed {s : Writer} (ms level : Nat) (v : List Char)
    (hc : canWrite s level = true) (ho : s.lineOpen = false) :
    printWithLevel s ms level v =
      ({ s with activeLevel := level, lineOpen := true },
        [Tok.hdr (writeHeaderBytes s ms level) level, Tok.txt v]) := by
  simp [printWithLevel, hc, ensureLineHeader_closed ms level ho]

theorem printWithLevel_same {s : Writer} (ms level : Nat) (v : List Char)
    (hc : canWrite s level = true) (ho : s.lineOpen = true)
    (ha : s.activeLevel = level) :
    printWithLevel s ms level v = (s, [Tok.txt v]) := by
  simp [printWithLevel, hc, ensureLineHeader_same ms level ho ha]

theorem printWithLevel_switch {s : Writer} (ms level : Nat) (v : List Char)
    (hc : canWrite s level = true) (ho : s.lineOpen = true)
    (ha : level ≠ s.activeLevel) :
    printWithLevel s ms level v =
      ({ s with activeLevel := level, lineOpen := true },
        [Tok.brk, Tok.hdr (writeHeaderBytes s ms level) level, Tok.txt v]) := by
  simp [printWithLevel, hc, ensureLineHeader_switch ms level ho ha]

theorem printlnWithLevel_closed {s : Writer} (ms level : Nat) (v : List Char)
    (hc : canWrite s level = true) (ho : s.lineOpen = false) :
    printlnWithLevel s ms level v =
      (resetLineState { s with activeLevel := level, lineOpen := true },
        [Tok.hdr (writeHeaderBytes s ms level) level, Tok.txt v, Tok.brk]) := by
  simp [printlnWithLevel, hc, ensureLineHeader_closed ms level ho]

theorem printlnWithLevel_same {s : Writer} (ms level : Nat) (v : List Char)
    (hc : canWrite s level = true) (ho : s.lineOpen = true)
    (ha : s.activeLevel = level) :
    printlnWithLevel s ms level v = (resetLineState s, [Tok.txt v, Tok.brk]) := by
  simp [printlnWithLevel, hc, ensureLineHeader_same ms level ho ha]

theorem countHdr_append (a b : List Tok) :
    countHdr (a ++ b) = countHdr a + countHdr b := by
  simp [countHdr, List.countP_append]

theorem lineInv_of_closed {s : Writer} (h : s.lineOpen = false)
    (out : List Tok) : lineInv s out := by
  intro hopen
  rw [h] at hopen
  cases hopen

/-- Each operation preserves the line-state invariant. -/
theorem lineInv_step (s : Writer) (out : List Tok) (op : Op)
    (hinv : lineInv s out) :
    lineInv (step s op).1 (out ++ (step s op).2) := by
  cases op with
  | opConfigure o => exact lineInv_of_closed rfl _
  | opSetPfx v => simpa [lineInv, step, setPfx] using hinv
  | opSetMinLevel l => simpa [lineInv, step, setMinLevel] using hinv
  | opSetPartSeparator v => simpa [lineInv, step, setPartSeparator] using hinv
  | opSetEnabled b =>
    cases b with
    | false => exact lineInv_of_closed rfl _
    | true => simpa [lineInv, step, setEnabled] using hinv
  | opPrint ms l v =>
    by_cases hc : canWrite s l
    · by_cases ho : s.lineOpen
      · by_cases ha : l = s.activeLevel
        · rw [show step s (Op.opPrint ms l v) = printWithLevel s ms l v from rfl,
            printWithLevel_same ms l v hc ho ha.symm]
          intro h
          simpa [openLevel, openLevelRev, List.reverse_append] using hinv h
        · rw [show step s (Op.opPrint ms l v) = printWithLevel s ms l v from rfl,
            printWithLevel_switch ms l v hc ho ha]
          intro h
          simp [openLevel, openLevelRev, List.reverse_append]
      · rw [show step s (Op.opPrint ms l v) = printWithLevel s ms l v from rfl,
          printWithLevel_closed ms l v hc (by simpa using ho)]
        intro h
        simp [openLevel, openLevelRev, List.reverse_append]
    · have hg : canWrite s l = false := by simpa using hc
      rw [show step s (Op.opPrint ms l v) = printWithLevel s ms l v from rfl]
      simpa [printWithLevel, hg, lineInv] using hinv
  | opPrintln ms l v =>
    by_cases hc : canWrite s l
    · have : (printlnWithLevel s ms l v).1.lineOpen = false := by
        simp [printlnWithLevel, hc, resetLineState]
      exact lineInv_of_closed this _
    · have hg : canWrite s l = false := by simpa using hc
      rw [show step s (Op.opPrintln ms l v) = printlnWithLevel s ms l v from rfl]
      simpa [printlnWithLevel, hg, lineInv] using hinv
  | opPrintlnNoArg ms =>
    by_cases hc : canWrite s s.defaultLevel
    · have : (printlnNoArg s ms).1.lineOpen = false := by
        simp [printlnNoArg, hc, resetLineState]
      exact lineInv_of_closed this _
    · have hg : canWrite s s.defaultLevel = false := by simpa using hc
      rw [show step s (Op.opPrintlnNoArg ms) = printlnNoArg s ms from rfl]
      simpa [printlnNoArg, hg, lineInv] using hinv
  | opLine ms l m =>
    by_cases hc : canWrite s l
    · have : (line s ms l m).1.lineOpen = false := by
        simp [line, hc, resetLineState]
      exact lineInv_of_closed this _
    · have hg : canWrite s l = false := by simpa using hc
      rw [show step s (Op.opLine ms l m) = line s ms l m from rfl]
      simpa [line, hg, lineInv] using hinv
  | opParts ms l ps =>
    by_cases hc : canWrite s l
    · have : (parts s ms l ps).1.lineOpen = false := by
        simp [parts, hc, resetLineState]
      exact lineInv_of_closed this _
    · have hg : canWrite s l = false := by simpa using hc
      rw [show step s (Op.opParts ms l ps) = parts s ms l ps from rfl]
      simpa [parts, hg, lineInv] using hinv

/-- Once a line is open at `level` and the gate passes, any number of further
`printWithLevel` calls at that level followed by a terminating
`printlnWithLevel` emit no further header. -/
theorem countHdr_run_open (level ms : Nat) (v : List Char)
    (calls : List (Nat × List Char)) :
    ∀ s : Writer, canWrite s level = true → s.lineOpen = true →
      s.activeLevel = level →
      countHdr (run s ((calls.map fun a => Op.opPrint a.1 level a.2)
        ++ [Op.opPrintln ms level v])).2 = 0 := by
  induction calls with
  | nil =>
    intro s hc ho ha
    rw [List.map_nil, List.nil_append, run_cons, run_nil]
    rw [show step s (Op.opPrintln ms level v) = printlnWithLevel s ms level v
      from rfl, printlnWithLevel_same ms level v hc ho ha]
    simp [countHdr, isHdr, List.countP_cons]
  | cons c cs ih =>
    intro s hc ho ha
    rw [List.map_cons, List.cons_append, run_cons]
    rw [show step s (Op.opPrint c.1 level c.2) = printWithLevel s c.1 level c.2
      from rfl, printWithLevel_same c.1 level c.2 hc ho ha]
    simp only [countHdr_append]
    rw [show countHdr [Tok.txt c.2] = 0 from rfl]
    simpa using ih s hc ho ha

theorem writeParts_eq_intersperse (sep : List Char) (ps : List (List Char)) :
    writeParts sep ps = List.intersperse (Tok.txt sep) (ps.map Tok.txt) := by
  induction ps with
  | nil => rfl
  | cons p rest ih =>
    cases rest with
    | nil => rfl
    | cons q t =>
      simp only [writeParts, List.map_cons, List.intersperse] at ih ⊢
      rw [ih]

theorem countHdr_cons (t : Tok) (l : List Tok) :
    countHdr (t :: l) = countHdr l + (if isHdr t then 1 else 0) := by
  simp [countHdr, List.countP_cons]

theorem countBrk_append (a b : List Tok) :
    countBrk (a ++ b) = countBrk a + countBrk b := by
  simp [countBrk, List.countP_append]

theorem countBrk_cons (t : Tok) (l : List Tok) :
    countBrk (t :: l) = countBrk l + (if isBrk t then 1 else 0) := by
  simp [countBrk, List.countP_cons]

theorem countHdr_writeParts (sep : List Char) (ps : List (List Char)) :
    countHdr (writeParts sep ps) = 0 := by
  induction ps with
  | nil => rfl
  | cons p rest ih =>
    cases rest with
    | nil => rfl
    | cons q t =>
      simp only [writeParts] at ih ⊢
      rw [countHdr_cons, countHdr_cons, ih]
      rfl

theorem countBrk_writeParts (sep : List Char) (ps : List (List Char)) :
    countBrk (writeParts sep ps) = 0 := by
  induction ps with
  | nil => rfl
  | cons p rest ih =>
    cases rest with
    | nil => rfl
    | cons q t =>
      simp only [writeParts] at ih ⊢
      rw [countBrk_cons, countBrk_cons, ih]
      rfl

theorem line_closed_eq {s : Writer} (ms level : Nat) (msg : List Char)
    (hc : canWrite s level = true) (ho : s.lineOpen = false) :
    line s ms level msg =
      (resetLineState { s with activeLevel := level, lineOpen := true },
        [Tok.hdr (writeHeaderBytes s ms level) level, Tok.txt msg,
          Tok.brk]) := by
  simp [line, hc, ensureLineHeader_closed ms level ho]

/-- `line` on a closed line whose `activeLevel` already equals `defaultLevel`
returns to exactly the starting state. -/
theorem line_state_closed (s : Writer) (ms level : Nat) (msg : List Char)
    (ho : s.lineOpen = false) (ha : s.activeLevel = s.defaultLevel) :
    (line s ms level msg).1 = s := by
  by_cases hc : canWrite s level = true
  · rw [line_closed_eq ms level msg hc ho]
    obtain ⟨o, e, sm, sl, ml, dl, lo, al, pb, sb⟩ := s
    simp only at ho ha
    subst ho
    subst ha
    rfl
  · rw [Bool.not_eq_true] at hc
    simp [line, hc]

theorem ensureLineHeader_defaultLevel (s : Writer) (ms level : Nat) :
    (ensureLineHeader s ms level).1.defaultLevel = s.defaultLevel := by
  simp only [ensureLineHeader]
  split
  · rfl
  · split
    · rfl
    · rfl

theorem step_defaultLevel (s : Writer) (op : Op) :
    (step s op).1.defaultLevel = s.defaultLevel := by
  cases op with
  | opConfigure o => rfl
  | opSetPfx v => rfl
  | opSetMinLevel l => rfl
  | opSetPartSeparator v => rfl
  | opSetEnabled b => cases b <;> rfl
  | opPrint ms l v =>
    by_cases hc : canWrite s l = true
    · simp [step, printWithLevel, hc, ensureLineHeader_defaultLevel]
    · rw [Bool.not_eq_true] at hc
      simp [step, printWithLevel, hc]
  | opPrintln ms l v =>
    by_cases hc : canWrite s l = true
    · simp [step, printlnWithLevel, hc, resetLineState,
        ensureLineHeader_defaultLevel]
    · rw [Bool.not_eq_true] at hc
      simp [step, printlnWithLevel, hc]
  | opPrintlnNoArg ms =>
    by_cases hc : canWrite s s.defaultLevel = true
    · simp [step, printlnNoArg, hc, resetLineState,
        ensureLineHeader_defaultLevel]
    · rw [Bool.not_eq_true] at hc
      simp [step, printlnNoArg, hc]
  | opLine ms l m =>
    by_cases hc : canWrite s l = true
    · simp [step, line, hc, resetLineState, ensureLineHeader_defaultLevel]
    · rw [Bool.not_eq_true] at hc
      simp [step, line, hc]
  | opParts ms l ps =>
    by_cases hc : canWrite s l = true
    · simp [step, parts, hc, resetLineState, ensureLineHeader_defaultLevel]
    · rw [Bool.not_eq_true] at hc
      simp [step, parts, hc]

/-! ## Claim theorems -/

/-- Claim C1: the line-state invariant holds initially and is preserved by
every operation — whenever `lineOpen` is true, a header for `activeLevel` has
been written to the sink and no line break since — and consequently, whenever
the gate passes, a terminated line assembled by any number of
`printWithLevel` (the spec's `writeAt`) calls at one level carries exactly one
header. -/
theorem line_state_machine_inv :
    lineInv initWriter []
    ∧ (∀ (s : Writer) (out : List Tok) (op : Op), lineInv s out →
        lineInv (step s op).1 (out ++ (step s op).2))
    ∧ (∀ (s : Writer) (level ms : Nat) (v : List Char)
        (calls : List (Nat × List Char)),
        canWrite s level = true → s.lineOpen = false →
        countHdr (run s ((calls.map fun a => Op.opPrint a.1 level a.2)
          ++ [Op.opPrintln ms level v])).2 = 1) := by
  refine ⟨by simp [lineInv, initWriter], lineInv_step, ?_⟩
  intro s level ms v calls hc ho
  cases calls with
  | nil =>
    rw [List.map_nil, List.nil_append, run_cons, run_nil]
    rw [show step s (Op.opPrintln ms level v) = printlnWithLevel s ms level v
      from rfl, printlnWithLevel_closed ms level v hc ho]
    simp [countHdr, isHdr, List.countP_cons]
  | cons c cs =>
    rw [List.map_cons, List.cons_append, run_cons]
    rw [show step s (Op.opPrint c.1 level c.2) = printWithLevel s c.1 level c.2
      from rfl, printWithLevel_closed c.1 level c.2 hc ho]
    rw [countHdr_append]
    rw [show countHdr [Tok.hdr (writeHeaderBytes s c.1 level) level,
      Tok.txt c.2] = 1 from rfl]
    rw [countHdr_run_open level ms v cs
      { s with activeLevel := level, lineOpen := true }
      (by rw [canWrite_line_fields]; exact hc) rfl rfl]

/-- Witness for C1: three same-level `printWithLevel` calls and a terminating
`printlnWithLevel` on the default attached writer emit exactly one header. -/
theorem line_state_machine_inv_witness :
    countHdr (run wEx (([(1, ['a']), (2, ['b']), (3, ['c'])].map
      fun a => Op.opPrint a.1 infoLevel a.2)
        ++ [Op.opPrintln 4 infoLevel ['d']])).2 = 1 :=
  by
  have hc : canWrite wEx infoLevel = true := by decide
  have ho : wEx.lineOpen = false := by decide
  exact line_state_machine_inv.2.2 wEx infoLevel 4 ['d']
    [(1, ['a']), (2, ['b']), (3, ['c'])] hc ho

/-- Claim C2: `ensureHeader(level)` is a three-case machine: with no line
open it writes a header for `level`, marks the line open and sets
`activeLevel = level`; with a line open at the same level it does nothing;
with a line open at a different level it emits a line break and then opens a
new line with a header for the new level, so two severities never share a
line. -/
theorem ensureLineHeader_three_cases (s : Writer) (ms level : Nat) :
    (s.lineOpen = false →
      ensureLineHeader s ms level =
        ({ s with activeLevel := level, lineOpen := true },
          [Tok.hdr (writeHeaderBytes s ms level) level]))
    ∧ (s.lineOpen = true → level = s.activeLevel →
        ensureLineHeader s ms level = (s, []))
    ∧ (s.lineOpen = true → level ≠ s.activeLevel →
        ensureLineHeader s ms level =
          ({ s with activeLevel := level, lineOpen := true },
            [Tok.brk, Tok.hdr (writeHeaderBytes s ms level) level])) :=
  ⟨fun ho => ensureLineHeader_closed ms level ho,
   fun ho ha => ensureLineHeader_same ms level ho ha.symm,
   fun ho ha => ensureLineHeader_switch ms level ho ha⟩

/-- Witness for C2: applying the first case at a concrete closed writer. -/
theorem ensureLineHeader_three_cases_witness :
    ensureLineHeader wEx 5 warnLevel =
      ({ wEx with activeLevel := warnLevel, lineOpen := true },
        [Tok.hdr (writeHeaderBytes wEx 5 warnLevel) warnLevel]) :=
  (ensureLineHeader_three_cases wEx 5 warnLevel).1 rfl

/-- Claim C3: `canWrite(level)` is false exactly when logging is disabled, no
sink is attached, the threshold is the sentinel `None`, or `level` is strictly
below the threshold; and every public write operation called when
`canWrite(level)` is false returns the state unchanged and writes nothing. -/
theorem canWrite_gate (s : Writer) (ms level : Nat) (msg v : List Char)
    (ps : List (List Char)) :
    (canWrite s level = false ↔
      s.enabled = false ∨ s.out = false ∨ s.minLevel = noneLevel ∨
        level < s.minLevel)
    ∧ (canWrite s level = false →
        line s ms level msg = (s, [])
        ∧ parts s ms level ps = (s, [])
        ∧ printWithLevel s ms level v = (s, [])
        ∧ printlnWithLevel s ms level v = (s, [])) := by
  constructor
  · by_cases he : s.enabled
    · by_cases hout : s.out
      · by_cases hm : s.minLevel = noneLevel
        · simp [canWrite, he, hout, hm]
        · simp [canWrite, he, hout, hm]
      · simp [canWrite, he, hout]
    · simp [canWrite, he]
  · intro h
    refine ⟨?_, ?_, ?_, ?_⟩ <;>
      simp [line, parts, printWithLevel, printlnWithLevel, h]

/-- Witness for C3: on a disabled writer, `line` is a no-op. -/
theorem canWrite_gate_witness :
    line wDis 0 infoLevel ['x'] = (wDis, []) :=
  ((canWrite_gate wDis 0 infoLevel ['x'] ['x'] []).2 (by decide)).1

/-- A writer with a line already open at Info (reached, e.g., after one
`printWithLevel(Info, ...)` call on `wEx`). -/
def wOpen : Writer := { wEx with lineOpen := true, activeLevel := infoLevel }

/-- Counterexample to C4 as stated: a multi-part call that passes the gate
while a line is already open at the same level emits no header at all, not
exactly one. -/
theorem parts_no_header_when_open :
    canWrite wOpen infoLevel = true
    ∧ wOpen = (printWithLevel wEx 0 infoLevel ['s']).1
    ∧ 2 ≤ ([['a'], ['b']] : List (List Char)).length
    ∧ countHdr (parts wOpen 0 infoLevel [['a'], ['b']]).2 = 0 := by decide

/-- Claim C4 (amended): for every multi-part call with N ≥ 2 parts that
passes the gate and is made while no line is open, the sink receives exactly
one header, then the N parts in order joined by exactly N-1 copies of the
configured separator (no leading and no trailing separator), then exactly one
line break, after which the line state is closed. -/
theorem parts_output (s : Writer) (ms level : Nat) (ps : List (List Char))
    (_hn : 2 ≤ ps.length) (hc : canWrite s level = true)
    (ho : s.lineOpen = false) :
    (parts s ms level ps).2 =
      Tok.hdr (writeHeaderBytes s ms level) level ::
        (List.intersperse (Tok.txt s.partSeparatorBuffer) (ps.map Tok.txt)
          ++ [Tok.brk])
    ∧ countHdr (parts s ms level ps).2 = 1
    ∧ countBrk (parts s ms level ps).2 = 1
    ∧ (parts s ms level ps).1.lineOpen = false := by
  have hout : parts s ms level ps =
      (resetLineState { s with activeLevel := level, lineOpen := true },
        Tok.hdr (writeHeaderBytes s ms level) level ::
          (writeParts s.partSeparatorBuffer ps ++ [Tok.brk])) := by
    simp [parts, hc, ensureLineHeader_closed ms level ho]
  refine ⟨?_, ?_, ?_, ?_⟩
  · rw [hout, writeParts_eq_intersperse]
  · rw [hout]
    simp only [countHdr_cons, countHdr_append, countHdr_writeParts]
    rfl
  · rw [hout]
    simp only [countBrk_cons, countBrk_append, countBrk_writeParts]
    rfl
  · rw [hout]
    rfl

/-- Witness for C4: the amended statement applied to a concrete three-part
call on the default attached writer. -/
theorem parts_output_witness :
    (parts wEx 0 infoLevel [['a'], ['b'], ['c']]).2 =
      Tok.hdr (writeHeaderBytes wEx 0 infoLevel) infoLevel ::
        (List.intersperse (Tok.txt wEx.partSeparatorBuffer)
          ([['a'], ['b'], ['c']].map Tok.txt) ++ [Tok.brk])
    ∧ countHdr (parts wEx 0 infoLevel [['a'], ['b'], ['c']]).2 = 1
    ∧ countBrk (parts wEx 0 infoLevel [['a'], ['b'], ['c']]).2 = 1
    ∧ (parts wEx 0 infoLevel [['a'], ['b'], ['c']]).1.lineOpen = false := by
  exact parts_output wEx 0 infoLevel [['a'], ['b'], ['c']]
    (by decide) (by decide) (by decide)

/-- Claim C5: a line emitted by `line` (the spec's `logAt`) has the bit-exact
format: the `[...] ` segment only if the stored prefix is non-empty, then the
millis value and one space only if `showMillis`, then the severity label and
`: ` only if `showLevel`, then the payload and a line break; with labels
Debug→"DEBUG", Info→"INFO", Warn→"WARN", Error→"ERROR" and "LOG" for every
other level value. -/
theorem line_format (s : Writer) (ms level : Nat) (msg : List Char)
    (hc : canWrite s level = true) (ho : s.lineOpen = false) :
    render (line s ms level msg).2 =
      (if s.pfxBuffer = [] then [] else '[' :: (s.pfxBuffer ++ [']', ' ']))
        ++ ((if s.showMillis then natChars ms ++ [' '] else [])
        ++ ((if s.showLevel then levelText level ++ [':', ' '] else [])
        ++ (msg ++ newlineBytes)))
    ∧ levelText debugLevel = "DEBUG".toList
    ∧ levelText infoLevel = "INFO".toList
    ∧ levelText warnLevel = "WARN".toList
    ∧ levelText errorLevel = "ERROR".toList
    ∧ (∀ l : Nat, l ≠ debugLevel → l ≠ infoLevel → l ≠ warnLevel →
        l ≠ errorLevel → levelText l = "LOG".toList) := by
  refine ⟨?_, by decide, by decide, by decide, by decide, ?_⟩
  · have hout : line s ms level msg =
        (resetLineState { s with activeLevel := level, lineOpen := true },
          [Tok.hdr (writeHeaderBytes s ms level) level, Tok.txt msg,
            Tok.brk]) := by
      simp [line, hc, ensureLineHeader_closed ms level ho]
    rw [hout]
    by_cases hp : s.pfxBuffer = [] <;>
      simp [render, writeHeaderBytes, hp]
  · intro l h0 h1 h2 h3
    simp [levelText, h0, h1, h2, h3]

/-- The §8 scenario writer: threshold Warn, prefix "NET", millis off, level
label on. -/
def wNet : Writer :=
  beginWriter initWriter
    { pfx := some ['N', 'E', 'T'], showMillis := false, showLevel := true,
      minLevel := warnLevel, partSeparator := some [' '] }

/-- Witness for C5: `warn("y")` on the scenario writer renders exactly
`[NET] WARN: y` plus the line break. -/
theorem line_format_witness :
    render (line wNet 0 warnLevel ['y']).2 =
      (if wNet.pfxBuffer = [] then [] else '[' :: (wNet.pfxBuffer ++ [']', ' ']))
        ++ ((if wNet.showMillis then natChars 0 ++ [' '] else [])
        ++ ((if wNet.showLevel then levelText warnLevel ++ [':', ' '] else [])
        ++ (['y'] ++ newlineBytes)))
    ∧ render (line wNet 0 warnLevel ['y']).2 =
        "[NET] WARN: y".toList ++ newlineBytes := by
  refine ⟨(line_format wNet 0 warnLevel ['y'] (by decide) (by decide)).1, ?_⟩
  decide

/-- Claim C8: copying configuration strings into the fixed buffers truncates
to capacity and stays well formed: a prefix is cut to 31 characters (a null
pointer acts as empty), a separator is cut to 7 characters (a null or empty
input becomes a single space), and a non-empty stored prefix always yields the
`[...] ` header segment. -/
theorem copy_truncation (v w : List Char) :
    copyPfx (some v) = v.take 31
    ∧ (copyPfx (some v)).length ≤ 31
    ∧ (v.length ≤ 31 → copyPfx (some v) = v)
    ∧ copyPfx none = []
    ∧ copyPartSeparator (some w) = (if w = [] then [' '] else w.take 7)
    ∧ (copyPartSeparator (some w)).length ≤ 7
    ∧ copyPartSeparator none = [' ']
    ∧ copyPartSeparator (some []) = [' ']
    ∧ (copyPfx (some v) ≠ [] → ∀ s : Writer, ∀ ms level : Nat,
        writeHeaderBytes { s with pfxBuffer := copyPfx (some v) } ms level =
          ('[' :: (v.take 31 ++ [']', ' ']))
            ++ (if s.showMillis then natChars ms ++ [' '] else [])
            ++ (if s.showLevel then levelText level ++ [':', ' '] else [])) := by
  refine ⟨?_, ?_, ?_, ?_, ?_, ?_, ?_, ?_, ?_⟩
  · simp [copyPfx, copyBounded_eq_take, pfxMaxLen]
  · simp [copyPfx, copyBounded_eq_take, pfxMaxLen]
  · intro h
    simp [copyPfx, copyBounded_eq_take, pfxMaxLen, List.take_of_length_le h]
  · rfl
  · by_cases hw : w = [] <;>
      simp [copyPartSeparator, copyBounded_eq_take, partSepMaxLen, hw]
  · by_cases hw : w = [] <;>
      simp [copyPartSeparator, copyBounded_eq_take, partSepMaxLen, hw]
  · rfl
  · rfl
  · intro hne s ms level
    have hv : v ≠ [] := by
      intro h
      exact hne (by simp [h, copyPfx, copyBounded])
    simp [writeHeaderBytes, copyPfx, copyBounded_eq_take, pfxMaxLen, hv]

/-- Witness for C8: a 40-character prefix is stored as its first 31
characters, and a short prefix is stored unchanged. -/
theorem copy_truncation_witness :
    copyPfx (some (List.replicate 40 'a')) = (List.replicate 40 'a').take 31
    ∧ copyPfx (some ['N', 'E', 'T']) = ['N', 'E', 'T'] :=
  ⟨(copy_truncation (List.replicate 40 'a') []).1,
   (copy_truncation ['N', 'E', 'T'] []).2.2.1 (by decide)⟩

/-- Claim C10: writing at the sentinel level `None` (numeric value 255) is not
suppressed: whenever the writer is enabled, attached, and the threshold is a
real level (at most `Error`), `canWrite(None)` is true because 255 is ≥ every
threshold, and the header for such a write uses the fallback label "LOG". -/
theorem noneLevel_write (s : Writer) (ms : Nat) (v : List Char)
    (he : s.enabled = true) (hout : s.out = true)
    (hm : s.minLevel ≤ errorLevel) :
    canWrite s noneLevel = true
    ∧ levelText noneLevel = "LOG".toList
    ∧ noneLevel = 255
    ∧ (s.lineOpen = false →
        printWithLevel s ms noneLevel v =
          ({ s with activeLevel := noneLevel, lineOpen := true },
            [Tok.hdr (writeHeaderBytes s ms noneLevel) noneLevel,
              Tok.txt v])) := by
  have hm3 : s.minLevel ≤ 3 := hm
  have hcw : canWrite s noneLevel = true := by
    simp [canWrite, he, hout, noneLevel]
    omega
  refine ⟨hcw, by decide, rfl, ?_⟩
  intro ho
  simp [printWithLevel, hcw, ensureLineHeader_closed _ _ ho]

/-- Witness for C10: on the default attached writer, a write at level `None`
goes through and is labelled "LOG". -/
theorem noneLevel_write_witness :
    canWrite wEx noneLevel = true ∧ levelText noneLevel = "LOG".toList :=
  ⟨(noneLevel_write wEx 0 ['x'] rfl rfl (by decide)).1,
   (noneLevel_write wEx 0 ['x'] rfl rfl (by decide)).2.1⟩

/-- Counterexample to C6 as stated: with the default configuration
(`showMillis = true`) and the clock reading 1 during the first call and 2
during the second, the two lines are not byte-identical. -/
theorem logAt_twice_not_identical :
    (line (beginWriter initWriter defaultOptions) 1 infoLevel ['x']).2 ≠
      (line ((line (beginWriter initWriter defaultOptions) 1 infoLevel
        ['x']).1) 2 infoLevel ['x']).2 := by decide

/-- Claim C6 (amended): calling `logAt` twice with identical level and
message on a freshly attached, identically configured writer produces two
byte-identical line outputs, provided the timestamp segment is disabled or
the clock reads the same value during both calls. -/
theorem logAt_twice_identical (o : Options) (t1 t2 level : Nat)
    (msg : List Char) (h : o.showMillis = false ∨ t1 = t2) :
    (line (beginWriter initWriter o) t1 level msg).2 =
      (line ((line (beginWriter initWriter o) t1 level msg).1)
        t2 level msg).2 := by
  have hs1 : (line (beginWriter initWriter o) t1 level msg).1 =
      beginWriter initWriter o :=
    line_state_closed _ t1 level msg rfl rfl
  rw [hs1]
  rcases h with hm | ht
  · have hsm : (beginWriter initWriter o).showMillis = false := hm
    by_cases hc : canWrite (beginWriter initWriter o) level = true
    · rw [line_closed_eq t1 level msg hc rfl, line_closed_eq t2 level msg hc rfl]
      simp [writeHeaderBytes, hsm]
    · rw [Bool.not_eq_true] at hc
      simp [line, hc]
  · subst ht
    rfl

/-- Options with the timestamp segment disabled. -/
def oNoMillis : Options := { defaultOptions with showMillis := false }

/-- Witness for C6: with millis display off, the two outputs coincide even
for different clock readings. -/
theorem logAt_twice_identical_witness :
    (line (beginWriter initWriter oNoMillis) 1 infoLevel ['x']).2 =
      (line ((line (beginWriter initWriter oNoMillis) 1 infoLevel ['x']).1)
        2 infoLevel ['x']).2 := by
  have h : oNoMillis.showMillis = false ∨ (1 : Nat) = 2 := Or.inl rfl
  exact logAt_twice_identical oNoMillis 1 2 infoLevel ['x'] h

/-- Claim C7: line state is reset to `(false, defaultLevel)` by full
reconfiguration, by disabling, and by line termination; `setEnabled(true)`
and the field setters for prefix, separator and threshold leave the line
state (and each other's fields) unchanged and write nothing to the sink, so
header text already on the sink is unaffected. -/
theorem line_state_resets_and_frames (s : Writer) (o : Options)
    (v : Option (List Char)) (l ms level : Nat) (msg : List Char) :
    ((configure s o).lineOpen = false
      ∧ (configure s o).activeLevel = s.defaultLevel)
    ∧ ((setEnabled s false).lineOpen = false
      ∧ (setEnabled s false).activeLevel = s.defaultLevel)
    ∧ (setEnabled s true).lineOpen = s.lineOpen
    ∧ (setEnabled s true).activeLevel = s.activeLevel
    ∧ ((setPfx s v).lineOpen = s.lineOpen
      ∧ (setPfx s v).activeLevel = s.activeLevel
      ∧ (setPfx s v).minLevel = s.minLevel
      ∧ (setPfx s v).partSeparatorBuffer = s.partSeparatorBuffer
      ∧ (setPfx s v).enabled = s.enabled
      ∧ (setPfx s v).showMillis = s.showMillis
      ∧ (setPfx s v).showLevel = s.showLevel
      ∧ (setPfx s v).out = s.out
      ∧ (setPfx s v).defaultLevel = s.defaultLevel
      ∧ (step s (Op.opSetPfx v)).2 = [])
    ∧ ((setMinLevel s l).lineOpen = s.lineOpen
      ∧ (setMinLevel s l).activeLevel = s.activeLevel
      ∧ (setMinLevel s l).pfxBuffer = s.pfxBuffer
      ∧ (setMinLevel s l).partSeparatorBuffer = s.partSeparatorBuffer
      ∧ (step s (Op.opSetMinLevel l)).2 = [])
    ∧ ((setPartSeparator s v).lineOpen = s.lineOpen
      ∧ (setPartSeparator s v).activeLevel = s.activeLevel
      ∧ (setPartSeparator s v).pfxBuffer = s.pfxBuffer
      ∧ (setPartSeparator s v).minLevel = s.minLevel
      ∧ (step s (Op.opSetPartSeparator v)).2 = [])
    ∧ (canWrite s level = true →
        (line s ms level msg).1.lineOpen = false
          ∧ (line s ms level msg).1.activeLevel = s.defaultLevel
          ∧ (printlnWithLevel s ms level msg).1.lineOpen = false
          ∧ (printlnWithLevel s ms level msg).1.activeLevel =
              s.defaultLevel) := by
  refine ⟨⟨rfl, rfl⟩, ⟨rfl, rfl⟩, rfl, rfl,
    ⟨rfl, rfl, rfl, rfl, rfl, rfl, rfl, rfl, rfl, rfl⟩,
    ⟨rfl, rfl, rfl, rfl, rfl⟩, ⟨rfl, rfl, rfl, rfl, rfl⟩, ?_⟩
  intro hc
  have h1 : (line s ms level msg).1 =
      resetLineState (ensureLineHeader s ms level).1 := by
    simp [line, hc]
  have h2 : (printlnWithLevel s ms level msg).1 =
      resetLineState (ensureLineHeader s ms level).1 := by
    simp [printlnWithLevel, hc]
  rw [h1, h2]
  refine ⟨rfl, ?_, rfl, ?_⟩ <;>
    simp [resetLineState, ensureLineHeader_defaultLevel]

/-- Witness for C7: a gated-through `line` call on the default attached
writer leaves the line closed at the default level. -/
theorem line_state_resets_and_frames_witness :
    (line wEx 0 infoLevel ['m']).1.lineOpen = false
    ∧ (line wEx 0 infoLevel ['m']).1.activeLevel = wEx.defaultLevel := by
  have h := (line_state_resets_and_frames wEx defaultOptions (some [' '])
    0 0 infoLevel ['m']).2.2.2.2.2.2.2 (by decide)
  exact ⟨h.1, h.2.1⟩

/-- Claim C9: the level-less `print(value)`, `println(value)` and `println()`
always operate at the fixed default level Info: `defaultLevel` starts at Info
and no operation ever changes it, the level-less calls delegate to the
levelled ones at `defaultLevel`, they are gated by `canWrite` at that level,
they open lines labelled Info, and every line-state reset sets `activeLevel`
back to this default. -/
theorem default_level_info (s : Writer) (op : Op) (ms : Nat) (v : List Char) :
    initWriter.defaultLevel = infoLevel
    ∧ (step s op).1.defaultLevel = s.defaultLevel
    ∧ printDefault s ms v = printWithLevel s ms s.defaultLevel v
    ∧ printlnDefault s ms v = printlnWithLevel s ms s.defaultLevel v
    ∧ (resetLineState s).activeLevel = s.defaultLevel
    ∧ (s.defaultLevel = infoLevel →
        (canWrite s infoLevel = false → printDefault s ms v = (s, []))
        ∧ (canWrite s infoLevel = true → s.lineOpen = false →
            printDefault s ms v =
              ({ s with activeLevel := infoLevel, lineOpen := true },
                [Tok.hdr (writeHeaderBytes s ms infoLevel) infoLevel,
                  Tok.txt v])))
    ∧ (canWrite s s.defaultLevel = false → printlnNoArg s ms = (s, [])) := by
  refine ⟨rfl, step_defaultLevel s op, rfl, rfl, rfl, ?_, ?_⟩
  · intro hd
    constructor
    · intro hc
      simp [printDefault, hd, printWithLevel, hc]
    · intro hc ho
      have h := printWithLevel_closed (s := s) ms infoLevel v hc ho
      simpa [printDefault, hd] using h
  · intro hc
    simp [printlnNoArg, hc]

/-- Witness for C9: on the default attached writer, a level-less `print`
opens an Info-labelled line. -/
theorem default_level_info_witness :
    printDefault wEx 7 ['z'] =
      ({ wEx with activeLevel := infoLevel, lineOpen := true },
        [Tok.hdr (writeHeaderBytes wEx 7 infoLevel) infoLevel,
          Tok.txt ['z']]) := by
  have h := (default_level_info wEx (Op.opPrintlnNoArg 0) 7
    ['z']).2.2.2.2.2.1 rfl
  exact h.2 (by decide) (by decide)

end O3
